import Mathlib

/-!
Verification development for the Seastar I/O queue admission layer
(`src/core/io_queue.cc`): the process-wide priority-class registry
(`register_one_priority_class`, `rename_one_priority_class`), ticket sizing
(`request_fq_ticket`), request admission (`queue_request` and its dispatch
callback), and the completion descriptor (`io_desc_read_write`).

Machine integers are modelled as `Nat`; the registry slot arrays become a
list of slots; the process-wide tables `_registered_shares` /
`_registered_names` are combined into one `Registry` value threaded through
the operations.  A slot with `shares = 0` is unoccupied, exactly as in the
C++ code where `!_registered_shares[i]` marks a free slot.
-/

namespace IoQueueModel

/-- Generic positional read with a default, mirroring indexed access into the
fixed C++ arrays. -/
def getAt {α : Type} : List α → α → Nat → α
  | [], d, _ => d
  | a :: _, _, 0 => a
  | _ :: rest, d, i + 1 => getAt rest d i

/-- Generic positional write; out-of-range writes leave the list unchanged. -/
def setAt {α : Type} : List α → Nat → α → List α
  | [], _, _ => []
  | _ :: rest, 0, a => a :: rest
  | x :: rest, i + 1, a => x :: setAt rest i a

/-- One slot of the process-wide registry: `_registered_shares[i]` together
with `_registered_names[i]`.  `shares = 0` means the slot is free. -/
structure Slot where
  shares : Nat
  name : String
deriving DecidableEq, Repr

/-- The process-wide registry state: the two fixed-size parallel arrays
`_registered_shares` and `_registered_names`, fused slot-wise. -/
structure Registry where
  slots : List Slot
deriving DecidableEq, Repr

/-- The initial registry: `_max_classes` zero-initialised (free) slots. -/
def Registry.init (maxClasses : Nat) : Registry :=
  ⟨List.replicate maxClasses ⟨0, ""⟩⟩

/-- Outcome of `io_queue::register_one_priority_class`: the returned
`io_priority_class` id, the `assert(_registered_shares[i] == shares)`
failure, or the `"No more room for new I/O priority classes"` exception. -/
inductive RegisterResult where
  | ok (id : Nat)
  | assertFail
  | capacityExceeded
deriving DecidableEq, Repr

/-- The scan loop of `register_one_priority_class`, slot by slot:
free slot → occupy it and return its index; occupied with another name →
continue; occupied with this name → assert the shares match and return the
index.  Falling off the end throws (capacity exceeded). -/
def registerAux (name : String) (shares : Nat) : Nat → List Slot → RegisterResult × List Slot
  | _, [] => (.capacityExceeded, [])
  | i, s :: rest =>
    if s.shares = 0 then
      (.ok i, ⟨shares, name⟩ :: rest)
    else if s.name ≠ name then
      ((registerAux name shares (i + 1) rest).1, s :: (registerAux name shares (i + 1) rest).2)
    else if s.shares = shares then
      (.ok i, s :: rest)
    else
      (.assertFail, s :: rest)

/-- `io_queue::register_one_priority_class(name, shares)`. -/
def register_one_priority_class (r : Registry) (name : String) (shares : Nat) :
    RegisterResult × Registry :=
  let res := registerAux name shares 0 r.slots
  (res.1, ⟨res.2⟩)

/-- Outcome of `io_queue::rename_one_priority_class`: the returned bool, or
the "rename to an already existing name" exception. -/
inductive RenameResult where
  | ok (changed : Bool)
  | nameCollision
deriving DecidableEq, Repr

/-- The scan loop of `rename_one_priority_class`: walks slots until the
first free one (`break`); a slot already holding `newName` returns `false`
when it is the renamed class itself and throws otherwise.  `none` means the
loop fell through to the assignment after it. -/
def renameScan (pc : Nat) (newName : String) : Nat → List Slot → Option RenameResult
  | _, [] => none
  | i, s :: rest =>
    if s.shares = 0 then
      none
    else if s.name = newName then
      if i = pc then some (.ok false) else some .nameCollision
    else
      renameScan pc newName (i + 1) rest

/-- `_registered_names[pc.id()] = new_name`: overwrite only the name of slot
`pc`, leaving its shares alone. -/
def setSlotName : List Slot → Nat → String → List Slot
  | [], _, _ => []
  | s :: rest, 0, n => ⟨s.shares, n⟩ :: rest
  | s :: rest, i + 1, n => s :: setSlotName rest i n

/-- `io_queue::rename_one_priority_class(pc, new_name)`. -/
def rename_one_priority_class (r : Registry) (pc : Nat) (newName : String) :
    RenameResult × Registry :=
  match renameScan pc newName 0 r.slots with
  | some out => (out, r)
  | none => (.ok true, ⟨setSlotName r.slots pc newName⟩)

/-- All slots of the list are free (`shares = 0`). -/
def allFree : List Slot → Bool
  | [] => true
  | s :: rest => (s.shares == 0) && allFree rest

/-- The occupied slots form a prefix: once a free slot appears, every later
slot is free as well.  Every reachable registry state satisfies this. -/
def prefixOcc : List Slot → Bool
  | [] => true
  | s :: rest => if s.shares == 0 then allFree rest else prefixOcc rest

/-- Occupied slots carry pairwise distinct names. -/
def noDupOcc : List Slot → Bool
  | [] => true
  | s :: rest =>
    (if s.shares == 0 then true
     else rest.all fun t => t.shares == 0 || t.name != s.name) && noDupOcc rest

/-- `newName` does not occur before the first free slot (the only region the
rename collision scan inspects). -/
def nameFreeBeforeGap (n : String) : List Slot → Bool
  | [] => true
  | s :: rest => s.shares == 0 || (s.name != n && nameFreeBeforeGap n rest)

/-- Index of the first free slot (= length when every slot is occupied). -/
def firstGap : List Slot → Nat
  | [] => 0
  | s :: rest => if s.shares = 0 then 0 else firstGap rest + 1

/-- Registry states reachable from the zeroed tables by any sequence of
registrations and renames. -/
inductive Reachable (maxClasses : Nat) : Registry → Prop
  | init : Reachable maxClasses (Registry.init maxClasses)
  | reg (r : Registry) (name : String) (shares : Nat) :
      Reachable maxClasses r →
      Reachable maxClasses (register_one_priority_class r name shares).2
  | ren (r : Registry) (pc : Nat) (newName : String) :
      Reachable maxClasses r →
      Reachable maxClasses (rename_one_priority_class r pc newName).2

/-- A concrete registry reached by registering "a" with 1 share and then
"b" with 2 shares on four initially free slots; used to instantiate the
reachable-state theorems. -/
def sampleRegistry : Registry :=
  (register_one_priority_class
    (register_one_priority_class (Registry.init 4) "a" 1).2 "b" 2).2

/-! ## Ticket sizing (`io_queue::request_fq_ticket`) -/

/-- The kind of an `internal::io_request` as the ticket sizing code
distinguishes it: `is_write()`, `is_read()`, or anything else. -/
inductive ReqKind where
  | read
  | write
  | other
deriving DecidableEq, Repr

/-- Error outcomes of the admission path: the
`"Unrecognized request passing through I/O queue"` exception. -/
inductive IoError where
  | unsupportedOperation
deriving DecidableEq, Repr

/-- A `fair_queue_ticket`: the (weight, size) pair a request charges against
the shared capacity. -/
structure Ticket where
  weight : Nat
  size : Nat
deriving DecidableEq, Repr

/-- `io_queue::read_request_base_count`.  Modelled from the spec: the
constant is defined in a header not present in the sources; the spec fixes
the read weight to "base unit (1)". -/
def read_request_base_count : Nat := 1

/-- The two configured multipliers of `io_queue::config` that ticket sizing
reads (`disk_req_write_to_read_multiplier`,
`disk_bytes_write_to_read_multiplier`). -/
structure IoQueueConfig where
  disk_req_write_to_read_multiplier : Nat
  disk_bytes_write_to_read_multiplier : Nat
deriving DecidableEq, Repr

/-- `io_queue::request_fq_ticket(req, len)`.  `shift` is the class constant
`request_ticket_size_shift` (its value lives in a header not present in the
sources, so it is kept as a parameter).  The `size` computation is done in
`size_t`, hence the reduction modulo `2 ^ 64`. -/
def request_fq_ticket (cfg : IoQueueConfig) (shift : Nat) (req : ReqKind) (len : Nat) :
    Except IoError Ticket :=
  if req = .write then
    let weight := cfg.disk_req_write_to_read_multiplier
    let size := (cfg.disk_bytes_write_to_read_multiplier * len) % 2 ^ 64
    .ok ⟨weight, size >>> shift⟩
  else if req = .read then
    let weight := read_request_base_count
    let size := (read_request_base_count * len) % 2 ^ 64
    .ok ⟨weight, size >>> shift⟩
  else
    .error .unsupportedOperation

/-! ## Queue state, per-class data, admission and dispatch -/

/-- One `io_queue::priority_class_data` entry: its stats block plus the
name/shares snapshot it was created from (the fair-queue class handle's
shares). -/
structure PriorityClassData where
  name : String
  shares : Nat
  nrQueued : Nat
  ops : Nat
  bytes : Nat
  queueTime : Nat
deriving DecidableEq, Repr

/-- Modelled from the spec: the Capacity Group's outstanding ticket
accounting (`fair_group` lives outside the provided sources).  It tracks the
total (weight, size) of admitted, not yet released tickets. -/
structure FairGroup where
  outstandingWeight : Nat
  outstandingSize : Nat
deriving DecidableEq, Repr

/-- Modelled from the spec: an entry held by the External Fair Scheduler
between `queue` and the invocation of the dispatch callback (the
`fair_queue` internals live outside the provided sources).  It carries
exactly what the dispatch lambda of `io_queue::queue_request` captures. -/
structure FqEntry where
  owner : Nat
  pcId : Nat
  ticket : Ticket
  len : Nat
  start : Nat
deriving DecidableEq, Repr

/-- The mutable state of one `io_queue` (plus the spec-modelled fair
scheduler portions): `_priority_classes` (outer index = owner shard, inner
index = class id), `_queued_requests`, `_requests_executing`, the Capacity
Group accounting, and the fair scheduler's pending queue. -/
structure QueueState where
  fg : FairGroup
  fqQueue : List FqEntry
  queuedRequests : Nat
  requestsExecuting : Nat
  priorityClasses : List (List (Option PriorityClassData))
deriving DecidableEq, Repr

/-- List growth as done by `std::vector::resize` on the grow-only paths of
`find_or_create_class`: extend with default elements up to length `n`. -/
def ensureSize {α : Type} (l : List α) (n : Nat) (d : α) : List α :=
  l ++ List.replicate (n - l.length) d

/-- The `do_insert` resizing prologue of `io_queue::find_or_create_class`:
grow the outer table to cover `owner` and the inner table to cover `pcId`,
returning the grown table together with the `do_insert` flag. -/
def growTable (pcs : List (List (Option PriorityClassData))) (pcId owner : Nat) :
    List (List (Option PriorityClassData)) × Bool :=
  if pcs.length ≤ owner then
    (setAt (ensureSize pcs (owner + 1) [])
      owner (ensureSize (getAt (ensureSize pcs (owner + 1) []) [] owner) (pcId + 1) none),
     true)
  else if (getAt pcs [] owner).length ≤ pcId then
    (setAt pcs owner (ensureSize (getAt pcs [] owner) (pcId + 1) none), true)
  else
    (pcs, false)

/-- The fresh `priority_class_data` built by `find_or_create_class` when the
entry is absent: (shares, name) are read from the registry for the class
id; the stats block starts zeroed and `queue_time` starts at one second,
hence `queueTime := 1`. -/
def freshPC (reg : Registry) (pcId : Nat) : PriorityClassData :=
  { name := (getAt reg.slots ⟨0, ""⟩ pcId).name,
    shares := (getAt reg.slots ⟨0, ""⟩ pcId).shares,
    nrQueued := 0, ops := 0, bytes := 0, queueTime := 1 }

/-- The table-manipulation part of `io_queue::find_or_create_class`: resize
the two-level `_priority_classes` table as needed and create the
`priority_class_data` entry when absent. -/
def find_or_create_table (reg : Registry) (pcs : List (List (Option PriorityClassData)))
    (pcId owner : Nat) : List (List (Option PriorityClassData)) :=
  let grown := growTable pcs pcId owner
  if grown.2 || (getAt (getAt grown.1 [] owner) none pcId).isNone then
    setAt grown.1 owner (setAt (getAt grown.1 [] owner) pcId (some (freshPC reg pcId)))
  else
    grown.1

/-- `io_queue::find_or_create_class(pc, owner)` as a state transformer: only
`_priority_classes` changes. -/
def find_or_create_class (reg : Registry) (st : QueueState) (pcId owner : Nat) : QueueState :=
  { st with priorityClasses := find_or_create_table reg st.priorityClasses pcId owner }

/-- Apply `f` to the table entry at `(owner, pcId)`, if present. -/
def updTable (pcs : List (List (Option PriorityClassData))) (owner pcId : Nat)
    (f : PriorityClassData → PriorityClassData) : List (List (Option PriorityClassData)) :=
  setAt pcs owner
    (setAt (getAt pcs [] owner) pcId ((getAt (getAt pcs [] owner) none pcId).map f))

/-- Apply `f` to the `priority_class_data` entry at `(owner, pcId)`, if
present. -/
def updatePC (st : QueueState) (owner pcId : Nat)
    (f : PriorityClassData → PriorityClassData) : QueueState :=
  { st with priorityClasses := updTable st.priorityClasses owner pcId f }

/-- `pclass.nr_queued++` at the end of `queue_request`. -/
def nrQueuedBump (p : PriorityClassData) : PriorityClassData :=
  { p with nrQueued := p.nrQueued + 1 }

/-- The per-class updates of the dispatch lambda: `nr_queued--`, `ops++`,
`bytes += len`, `queue_time = now - start`. -/
def dispatchUpd (len start now : Nat) (p : PriorityClassData) : PriorityClassData :=
  { p with nrQueued := p.nrQueued - 1, ops := p.ops + 1, bytes := p.bytes + len,
           queueTime := now - start }

/-- `io_queue::queue_request(pc, len, req)` up to its return: locate/create
the class state, size the ticket (throwing on an unrecognized kind — the
thrown exception becomes the failed future `futurize_invoke` returns),
hand (class, ticket, callback) to the fair scheduler, and bump
`nr_queued` / `_queued_requests`. -/
def queue_request (reg : Registry) (cfg : IoQueueConfig) (shift : Nat) (st : QueueState)
    (pcId owner len : Nat) (req : ReqKind) (start : Nat) :
    QueueState × Except IoError Unit :=
  let st1 := find_or_create_class reg st pcId owner
  match request_fq_ticket cfg shift req len with
  | .error e => (st1, .error e)
  | .ok t =>
    let st2 := { st1 with fqQueue := st1.fqQueue ++ [⟨owner, pcId, t, len, start⟩] }
    let st3 := updatePC st2 owner pcId nrQueuedBump
    ({ st3 with queuedRequests := st3.queuedRequests + 1 }, .ok ())

/-- Modelled from the spec: the External Fair Scheduler grabs the ticket's
capacity from the Capacity Group when it admits the request (the
`fair_queue`/`fair_group` internals live outside the provided sources). -/
def fair_group_grab (st : QueueState) (t : Ticket) : QueueState :=
  { st with fg := ⟨st.fg.outstandingWeight + t.weight, st.fg.outstandingSize + t.size⟩ }

/-- The dispatch lambda passed to `_fq.queue` in `io_queue::queue_request`:
`_queued_requests--`, `_requests_executing++`, `nr_queued--`, `ops++`,
`bytes += len`, and `queue_time = now - start`. -/
def dispatch_callback (st : QueueState) (owner pcId len start now : Nat) : QueueState :=
  let st1 := { st with queuedRequests := st.queuedRequests - 1,
                       requestsExecuting := st.requestsExecuting + 1 }
  updatePC st1 owner pcId (dispatchUpd len start now)

/-- `io_queue::notify_requests_finished(ticket)`:
`_requests_executing--` followed by the fair scheduler's release of the
ticket's capacity back to the Capacity Group (the latter modelled from the
spec, `fair_queue` being outside the provided sources). -/
def notify_requests_finished (st : QueueState) (t : Ticket) : QueueState :=
  { st with requestsExecuting := st.requestsExecuting - 1,
            fg := ⟨st.fg.outstandingWeight - t.weight, st.fg.outstandingSize - t.size⟩ }

deriving instance DecidableEq for Except

/-- An `io_desc_read_write` completion descriptor: the ticket it owns and
its promise, `none` while unresolved. -/
structure IoDescRW where
  ticket : Ticket
  result : Option (Except Unit Nat)
deriving DecidableEq, Repr

/-- `io_desc_read_write::complete(res)`: on a live descriptor, release the
ticket (`notify_requests_finished`), set the promise's value, and destroy
the descriptor (further terminal calls are impossible: `none`). -/
def desc_complete (st : QueueState) (d : IoDescRW) (res : Nat) :
    Option (QueueState × IoDescRW) :=
  match d.result with
  | none => some (notify_requests_finished st d.ticket, { d with result := some (.ok res) })
  | some _ => none

/-- `io_desc_read_write::set_exception(eptr)`: on a live descriptor, release
the ticket, set the promise's exception, destroy the descriptor. -/
def desc_set_exception (st : QueueState) (d : IoDescRW) :
    Option (QueueState × IoDescRW) :=
  match d.result with
  | none => some (notify_requests_finished st d.ticket, { d with result := some (.error ()) })
  | some _ => none

/-- Per-class cumulative `ops` counter as read off the two-level table. -/
def clsOps (pcs : List (List (Option PriorityClassData))) (owner pcId : Nat) : Nat :=
  ((getAt (getAt pcs [] owner) none pcId).map PriorityClassData.ops).getD 0

/-- Per-class cumulative `bytes` counter as read off the two-level table. -/
def clsBytes (pcs : List (List (Option PriorityClassData))) (owner pcId : Nat) : Nat :=
  ((getAt (getAt pcs [] owner) none pcId).map PriorityClassData.bytes).getD 0

/-- The entry of the two-level class table at `(owner, pcId)`. -/
def getPC (st : QueueState) (owner pcId : Nat) : Option PriorityClassData :=
  getAt (getAt st.priorityClasses [] owner) none pcId

/-- One step of the admission/dispatch/completion lifecycle of a queue. -/
inductive QStep (reg : Registry) (cfg : IoQueueConfig) (shift : Nat) :
    QueueState → QueueState → Prop
  | enq (st : QueueState) (pcId owner len : Nat) (req : ReqKind) (start : Nat) :
      QStep reg cfg shift st (queue_request reg cfg shift st pcId owner len req start).1
  | disp (st : QueueState) (e : FqEntry) (rest : List FqEntry) (now : Nat) :
      st.fqQueue = e :: rest →
      QStep reg cfg shift st
        (dispatch_callback (fair_group_grab { st with fqQueue := rest } e.ticket)
          e.owner e.pcId e.len e.start now)
  | compl (st : QueueState) (d : IoDescRW) (res : Nat) (st' : QueueState) (d' : IoDescRW) :
      desc_complete st d res = some (st', d') →
      QStep reg cfg shift st st'
  | fail (st : QueueState) (d : IoDescRW) (st' : QueueState) (d' : IoDescRW) :
      desc_set_exception st d = some (st', d') →
      QStep reg cfg shift st st'

end IoQueueModel

namespace IoQueueModel

/-! ## Basic list lemmas -/

theorem getAt_of_ge {α : Type} (l : List α) (d : α) (j : Nat) (h : l.length ≤ j) :
    getAt l d j = d := by
  induction l generalizing j with
  | nil => cases j <;> rfl
  | cons a rest ih =>
    cases j with
    | zero => exact absurd h (by simp)
    | succ j => exact ih j (by simpa using Nat.le_of_succ_le_succ h)

theorem lt_of_getAt_ne {α : Type} (l : List α) (d : α) (j : Nat) (h : getAt l d j ≠ d) :
    j < l.length := by
  by_contra hge
  exact h (getAt_of_ge l d j (Nat.le_of_not_lt hge))

theorem getAt_mem {α : Type} (l : List α) (d : α) (j : Nat) (h : j < l.length) :
    getAt l d j ∈ l := by
  induction l generalizing j with
  | nil => simp at h
  | cons a rest ih =>
    cases j with
    | zero => exact List.mem_cons_self a rest
    | succ j => exact List.mem_cons_of_mem a (ih j (by simpa using Nat.lt_of_succ_lt_succ h))

theorem length_setAt {α : Type} (l : List α) (i : Nat) (a : α) :
    (setAt l i a).length = l.length := by
  induction l generalizing i with
  | nil => rfl
  | cons x rest ih =>
    cases i with
    | zero => rfl
    | succ i => simpa [setAt] using ih i

theorem getAt_setAt_self {α : Type} (l : List α) (i : Nat) (a d : α) (h : i < l.length) :
    getAt (setAt l i a) d i = a := by
  induction l generalizing i with
  | nil => simp at h
  | cons x rest ih =>
    cases i with
    | zero => rfl
    | succ i => exact ih i (by simpa using Nat.lt_of_succ_lt_succ h)

theorem getAt_setAt_ne {α : Type} (l : List α) (i j : Nat) (a d : α) (h : j ≠ i) :
    getAt (setAt l i a) d j = getAt l d j := by
  induction l generalizing i j with
  | nil => rfl
  | cons x rest ih =>
    cases i with
    | zero =>
      cases j with
      | zero => exact absurd rfl h
      | succ j => rfl
    | succ i =>
      cases j with
      | zero => rfl
      | succ j => exact ih i j fun hji => h (by simp [hji])

theorem getAt_append_replicate {α : Type} (l : List α) (k : Nat) (d : α) (j : Nat) :
    getAt (l ++ List.replicate k d) d j = getAt l d j := by
  induction l generalizing j with
  | nil =>
    simp only [List.nil_append]
    induction k generalizing j with
    | zero => rfl
    | succ k ihk =>
      cases j with
      | zero => rfl
      | succ j => simpa [List.replicate_succ, getAt] using ihk j
  | cons a rest ih =>
    cases j with
    | zero => rfl
    | succ j => exact ih j

theorem getAt_ensureSize {α : Type} (l : List α) (n : Nat) (d : α) (j : Nat) :
    getAt (ensureSize l n d) d j = getAt l d j :=
  getAt_append_replicate l (n - l.length) d j

theorem length_ensureSize {α : Type} (l : List α) (n : Nat) (d : α) :
    (ensureSize l n d).length = max l.length n := by
  simp only [ensureSize, List.length_append, List.length_replicate, Nat.max_def]
  split <;> omega

/-! ## Registry occupancy invariants: helper lemmas -/

theorem allFree_getAt (l : List Slot) (j : Nat) (h : allFree l = true) :
    (getAt l ⟨0, ""⟩ j).shares = 0 := by
  induction l generalizing j with
  | nil => cases j <;> rfl
  | cons s rest ih =>
    simp only [allFree, Bool.and_eq_true, beq_iff_eq] at h
    cases j with
    | zero => exact h.1
    | succ j => exact ih j h.2

theorem allFree_imp_prefixOcc (l : List Slot) (h : allFree l = true) : prefixOcc l = true := by
  cases l with
  | nil => rfl
  | cons s rest =>
    simp only [allFree, Bool.and_eq_true, beq_iff_eq] at h
    simp [prefixOcc, h.1, h.2]

theorem allFree_imp_noDupOcc (l : List Slot) (h : allFree l = true) : noDupOcc l = true := by
  induction l with
  | nil => rfl
  | cons s rest ih =>
    simp only [allFree, Bool.and_eq_true, beq_iff_eq] at h
    simp [noDupOcc, h.1, ih h.2]

theorem prefixOcc_cons_free (s : Slot) (rest : List Slot) (h : s.shares = 0) :
    prefixOcc (s :: rest) = allFree rest := by
  simp [prefixOcc, h]

theorem prefixOcc_cons_occ (s : Slot) (rest : List Slot) (h : s.shares ≠ 0) :
    prefixOcc (s :: rest) = prefixOcc rest := by
  simp [prefixOcc, h]

theorem noDupOcc_rest (s : Slot) (rest : List Slot) (h : noDupOcc (s :: rest) = true) :
    noDupOcc rest = true := by
  simp only [noDupOcc, Bool.and_eq_true] at h
  exact h.2

theorem allFree_mem (l : List Slot) (h : allFree l = true) : ∀ t ∈ l, t.shares = 0 := by
  induction l with
  | nil => simp
  | cons s rest ih =>
    simp only [allFree, Bool.and_eq_true, beq_iff_eq] at h
    intro t ht
    rcases List.mem_cons.mp ht with h' | h'
    · rw [h']; exact h.1
    · exact ih h.2 t h'

theorem noDupOcc_head_occ (s : Slot) (rest : List Slot) (hs : s.shares ≠ 0)
    (h : noDupOcc (s :: rest) = true) :
    ∀ t ∈ rest, t.shares = 0 ∨ t.name ≠ s.name := by
  simp only [noDupOcc, Bool.and_eq_true] at h
  obtain ⟨h1, _⟩ := h
  rw [if_neg (by simp [hs] : ¬ ((s.shares == 0) = true))] at h1
  rw [List.all_eq_true] at h1
  intro t ht
  simpa [Bool.or_eq_true, beq_iff_eq, bne_iff_ne] using h1 t ht

theorem noDupOcc_cons_occ_intro (s : Slot) (rest : List Slot)
    (hhead : ∀ t ∈ rest, t.shares = 0 ∨ t.name ≠ s.name) (hrest : noDupOcc rest = true) :
    noDupOcc (s :: rest) = true := by
  simp only [noDupOcc, Bool.and_eq_true]
  refine ⟨?_, hrest⟩
  split
  · trivial
  · rw [List.all_eq_true]
    intro t ht
    rcases hhead t ht with h | h <;> simp [h]

/-! ## Registration lemmas -/

theorem registerAux_mem (name : String) (shares i : Nat) (l : List Slot) (t : Slot)
    (ht : t ∈ (registerAux name shares i l).2) : t ∈ l ∨ t = ⟨shares, name⟩ := by
  induction l generalizing i with
  | nil => simp [registerAux] at ht
  | cons s rest ih =>
    by_cases hs : s.shares = 0
    · simp only [registerAux, if_pos hs] at ht
      rcases List.mem_cons.mp ht with h | h
      · right; exact h
      · left; exact List.mem_cons_of_mem s h
    · by_cases hn : s.name ≠ name
      · simp only [registerAux, if_neg hs, if_pos hn] at ht
        rcases List.mem_cons.mp ht with h | h
        · left; simp [h]
        · rcases ih (i + 1) h with h' | h'
          · left; exact List.mem_cons_of_mem s h'
          · right; exact h'
      · by_cases hsh : s.shares = shares
        · simp only [registerAux, if_neg hs, if_neg hn, if_pos hsh] at ht
          left; exact ht
        · simp only [registerAux, if_neg hs, if_neg hn, if_neg hsh] at ht
          left; exact ht

theorem registerAux_inv (name : String) (shares i : Nat) (l : List Slot)
    (hp : prefixOcc l = true) (hd : noDupOcc l = true) :
    prefixOcc (registerAux name shares i l).2 = true ∧
      noDupOcc (registerAux name shares i l).2 = true := by
  induction l generalizing i with
  | nil => exact ⟨rfl, rfl⟩
  | cons s rest ih =>
    by_cases hs : s.shares = 0
    · have hfree : allFree rest = true := by rwa [prefixOcc_cons_free s rest hs] at hp
      simp only [registerAux, if_pos hs]
      constructor
      · by_cases h0 : shares = 0
        · rw [prefixOcc_cons_free ⟨shares, name⟩ rest h0]; exact hfree
        · rw [prefixOcc_cons_occ ⟨shares, name⟩ rest h0]
          exact allFree_imp_prefixOcc rest hfree
      · by_cases h0 : shares = 0
        · simp only [noDupOcc, Bool.and_eq_true]
          exact ⟨by simp [h0], allFree_imp_noDupOcc rest hfree⟩
        · refine noDupOcc_cons_occ_intro _ _ ?_ (allFree_imp_noDupOcc rest hfree)
          intro t ht
          exact Or.inl (allFree_mem rest hfree t ht)
    · have hp' : prefixOcc rest = true := by rwa [prefixOcc_cons_occ s rest hs] at hp
      have hd' : noDupOcc rest = true := noDupOcc_rest s rest hd
      by_cases hn : s.name ≠ name
      · simp only [registerAux, if_neg hs, if_pos hn]
        have ihr := ih i.succ hp' hd'
        constructor
        · rw [prefixOcc_cons_occ s _ hs]; exact ihr.1
        · refine noDupOcc_cons_occ_intro _ _ ?_ ihr.2
          intro t ht
          rcases registerAux_mem name shares (i + 1) rest t ht with h | h
          · exact noDupOcc_head_occ s rest hs hd t h
          · right; rw [h]; simpa using fun hc => hn hc.symm
      · by_cases hsh : s.shares = shares
        · simp only [registerAux, if_neg hs, if_neg hn, if_pos hsh]
          exact ⟨hp, hd⟩
        · simp only [registerAux, if_neg hs, if_neg hn, if_neg hsh]
          exact ⟨hp, hd⟩

theorem registerAux_at_existing (n : String) (s s' i id : Nat) (l : List Slot)
    (hp : prefixOcc l = true) (hd : noDupOcc l = true)
    (hslot : getAt l ⟨0, ""⟩ id = ⟨s, n⟩) (hocc : s ≠ 0) :
    registerAux n s' i l =
      ((if s = s' then RegisterResult.ok (i + id) else RegisterResult.assertFail), l) := by
  induction l generalizing i id with
  | nil =>
    exfalso
    apply hocc
    have : (⟨s, n⟩ : Slot).shares = 0 := by
      rw [← hslot]; cases id <;> rfl
    exact this
  | cons h rest ih =>
    cases id with
    | zero =>
      have hh : h = ⟨s, n⟩ := hslot
      subst hh
      simp only [registerAux, if_neg hocc]
      rw [if_neg (by simp : ¬ ((⟨s, n⟩ : Slot).name ≠ n))]
      by_cases hsh : s = s'
      · rw [if_pos hsh, if_pos hsh]; simp
      · rw [if_neg hsh, if_neg hsh]
    | succ j =>
      have hslot' : getAt rest ⟨0, ""⟩ j = ⟨s, n⟩ := hslot
      have hjlt : j < rest.length := by
        apply lt_of_getAt_ne rest ⟨0, ""⟩ j
        rw [hslot']
        intro hc
        exact hocc (congrArg Slot.shares hc)
      have hhs : h.shares ≠ 0 := by
        intro hh0
        rw [prefixOcc_cons_free h rest hh0] at hp
        have := allFree_getAt rest j hp
        rw [hslot'] at this
        exact hocc this
      have hhn : h.name ≠ n := by
        have hmem : (⟨s, n⟩ : Slot) ∈ rest := by rw [← hslot']; exact getAt_mem rest ⟨0, ""⟩ j hjlt
        rcases noDupOcc_head_occ h rest hhs hd ⟨s, n⟩ hmem with h0 | hne
        · exact absurd h0 hocc
        · exact fun hc => hne (by simpa using hc.symm)
      have hp' : prefixOcc rest = true := by rwa [prefixOcc_cons_occ h rest hhs] at hp
      have hd' : noDupOcc rest = true := noDupOcc_rest h rest hd
      have ihr := ih (i + 1) j hp' hd' hslot'
      simp only [registerAux, if_neg hhs]
      rw [if_pos (by simpa using fun hc : h.name = n => hhn hc)]
      rw [ihr]
      have harith : i + 1 + j = i + (j + 1) := by omega
      by_cases hsh : s = s'
      · simp [hsh, harith]
      · simp [hsh]

theorem registerAux_full (n : String) (s' i : Nat) (l : List Slot)
    (h : ∀ t ∈ l, t.shares ≠ 0 ∧ t.name ≠ n) :
    registerAux n s' i l = (.capacityExceeded, l) := by
  induction l generalizing i with
  | nil => rfl
  | cons s rest ih =>
    have hs := h s (List.mem_cons_self s rest)
    simp only [registerAux, if_neg hs.1]
    rw [if_pos hs.2]
    rw [ih (i + 1) fun t ht => h t (List.mem_cons_of_mem s ht)]

theorem registerAux_pres_occ (n : String) (s' i j : Nat) (l : List Slot)
    (hj : (getAt l ⟨0, ""⟩ j).shares ≠ 0) :
    getAt (registerAux n s' i l).2 ⟨0, ""⟩ j = getAt l ⟨0, ""⟩ j := by
  induction l generalizing i j with
  | nil => rfl
  | cons s rest ih =>
    by_cases hs : s.shares = 0
    · simp only [registerAux, if_pos hs]
      cases j with
      | zero => exact absurd hs hj
      | succ j => rfl
    · by_cases hn : s.name ≠ n
      · simp only [registerAux, if_pos hn, if_neg hs]
        cases j with
        | zero => rfl
        | succ j => exact ih (i + 1) j hj
      · by_cases hsh : s.shares = s'
        · simp only [registerAux, if_neg hs, if_neg hn, if_pos hsh]
        · simp only [registerAux, if_neg hs, if_neg hn, if_neg hsh]

/-! ## Rename lemmas -/

theorem getAt_setSlotName_ne (l : List Slot) (pc i : Nat) (n : String) (h : i ≠ pc) :
    getAt (setSlotName l pc n) ⟨0, ""⟩ i = getAt l ⟨0, ""⟩ i := by
  induction l generalizing pc i with
  | nil => rfl
  | cons s rest ih =>
    cases pc with
    | zero =>
      cases i with
      | zero => exact absurd rfl h
      | succ i => rfl
    | succ pc =>
      cases i with
      | zero => rfl
      | succ i => exact ih pc i fun hc => h (by simp [hc])

theorem getAt_setSlotName_self (l : List Slot) (pc : Nat) (n : String) (h : pc < l.length) :
    getAt (setSlotName l pc n) ⟨0, ""⟩ pc = ⟨(getAt l ⟨0, ""⟩ pc).shares, n⟩ := by
  induction l generalizing pc with
  | nil => simp at h
  | cons s rest ih =>
    cases pc with
    | zero => rfl
    | succ pc => exact ih pc (by simpa using Nat.lt_of_succ_lt_succ h)

theorem setSlotName_mem (l : List Slot) (pc : Nat) (n : String) (t : Slot)
    (ht : t ∈ setSlotName l pc n) : t ∈ l ∨ t.name = n := by
  induction l generalizing pc with
  | nil => simp [setSlotName] at ht
  | cons s rest ih =>
    cases pc with
    | zero =>
      rcases List.mem_cons.mp ht with h | h
      · right; rw [h]
      · left; exact List.mem_cons_of_mem s h
    | succ pc =>
      rcases List.mem_cons.mp ht with h | h
      · left; simp [h]
      · rcases ih pc h with h' | h'
        · left; exact List.mem_cons_of_mem s h'
        · right; exact h'

theorem allFree_setSlotName (l : List Slot) (pc : Nat) (n : String) :
    allFree (setSlotName l pc n) = allFree l := by
  induction l generalizing pc with
  | nil => rfl
  | cons s rest ih =>
    cases pc with
    | zero => simp [setSlotName, allFree]
    | succ pc => simp [setSlotName, allFree, ih pc]

theorem prefixOcc_setSlotName (l : List Slot) (pc : Nat) (n : String) :
    prefixOcc (setSlotName l pc n) = prefixOcc l := by
  induction l generalizing pc with
  | nil => rfl
  | cons s rest ih =>
    cases pc with
    | zero => simp [setSlotName, prefixOcc]
    | succ pc =>
      by_cases hs : s.shares = 0
      · simp [setSlotName, prefixOcc, hs, allFree_setSlotName]
      · simp [setSlotName, prefixOcc, hs, ih pc]

theorem gapFree_all (n : String) (l : List Slot) (hp : prefixOcc l = true)
    (hf : nameFreeBeforeGap n l = true) : ∀ t ∈ l, t.shares = 0 ∨ t.name ≠ n := by
  induction l with
  | nil => simp
  | cons s rest ih =>
    intro t ht
    by_cases hs : s.shares = 0
    · have hfree : allFree rest = true := by rwa [prefixOcc_cons_free s rest hs] at hp
      rcases List.mem_cons.mp ht with h | h
      · left; rw [h]; exact hs
      · left; exact allFree_mem rest hfree t h
    · have hp' : prefixOcc rest = true := by rwa [prefixOcc_cons_occ s rest hs] at hp
      simp only [nameFreeBeforeGap, Bool.or_eq_true, Bool.and_eq_true, beq_iff_eq,
        bne_iff_ne] at hf
      rcases hf with h0 | ⟨hne, hf'⟩
      · exact absurd h0 hs
      · rcases List.mem_cons.mp ht with h | h
        · right; rw [h]; exact hne
        · exact ih hp' hf' t h

theorem renameScan_none_of_gapFree (pc : Nat) (n : String) (i : Nat) (l : List Slot)
    (h : ∀ j, j < firstGap l → (getAt l ⟨0, ""⟩ j).name ≠ n) :
    renameScan pc n i l = none := by
  induction l generalizing i with
  | nil => rfl
  | cons s rest ih =>
    by_cases hs : s.shares = 0
    · simp [renameScan, hs]
    · have hgap : firstGap (s :: rest) = firstGap rest + 1 := by simp [firstGap, hs]
      have hname : s.name ≠ n := by
        have := h 0 (by rw [hgap]; omega)
        exact this
      simp only [renameScan, if_neg hs, if_neg hname]
      exact ih (i + 1) fun j hj => h (j + 1) (by rw [hgap]; omega)

theorem renameScan_imp_nameFree (pc : Nat) (n : String) (i : Nat) (l : List Slot)
    (h : renameScan pc n i l = none) : nameFreeBeforeGap n l = true := by
  induction l generalizing i with
  | nil => rfl
  | cons s rest ih =>
    by_cases hs : s.shares = 0
    · simp [nameFreeBeforeGap, hs]
    · simp only [renameScan, if_neg hs] at h
      by_cases hn : s.name = n
      · rw [if_pos hn] at h
        split at h <;> exact absurd h (by simp)
      · rw [if_neg hn] at h
        simp [nameFreeBeforeGap, hs, hn, ih (i + 1) h]

theorem renameScan_hit (pc : Nat) (n : String) (sj i j : Nat) (l : List Slot)
    (hp : prefixOcc l = true) (hd : noDupOcc l = true)
    (hslot : getAt l ⟨0, ""⟩ j = ⟨sj, n⟩) (hocc : sj ≠ 0) :
    renameScan pc n i l =
      some (if i + j = pc then RenameResult.ok false else RenameResult.nameCollision) := by
  induction l generalizing i j with
  | nil =>
    exfalso
    apply hocc
    have : (⟨sj, n⟩ : Slot).shares = 0 := by rw [← hslot]; cases j <;> rfl
    exact this
  | cons h rest ih =>
    cases j with
    | zero =>
      have hh : h = ⟨sj, n⟩ := hslot
      subst hh
      simp only [renameScan, if_neg hocc, if_pos rfl]
      by_cases hip : i = pc
      · rw [if_pos hip, if_pos (by omega : i + 0 = pc)]; simp
      · rw [if_neg hip, if_neg (by omega : ¬ i + 0 = pc)]; simp
    | succ j =>
      have hslot' : getAt rest ⟨0, ""⟩ j = ⟨sj, n⟩ := hslot
      have hhs : h.shares ≠ 0 := by
        intro hh0
        rw [prefixOcc_cons_free h rest hh0] at hp
        have := allFree_getAt rest j hp
        rw [hslot'] at this
        exact hocc this
      have hjlt : j < rest.length := by
        apply lt_of_getAt_ne rest ⟨0, ""⟩ j
        rw [hslot']
        intro hc
        exact hocc (congrArg Slot.shares hc)
      have hhn : h.name ≠ n := by
        have hmem : (⟨sj, n⟩ : Slot) ∈ rest := by
          rw [← hslot']; exact getAt_mem rest ⟨0, ""⟩ j hjlt
        rcases noDupOcc_head_occ h rest hhs hd ⟨sj, n⟩ hmem with h0 | hne
        · exact absurd h0 hocc
        · exact fun hc => hne (by simpa using hc.symm)
      have hp' : prefixOcc rest = true := by rwa [prefixOcc_cons_occ h rest hhs] at hp
      have hd' : noDupOcc rest = true := noDupOcc_rest h rest hd
      simp only [renameScan, if_neg hhs, if_neg hhn]
      rw [ih (i + 1) j hp' hd' hslot']
      by_cases hip : i + 1 + j = pc
      · rw [if_pos hip, if_pos (by omega : i + (j + 1) = pc)]
      · rw [if_neg hip, if_neg (by omega : ¬ i + (j + 1) = pc)]

theorem noDupOcc_setSlotName (l : List Slot) (pc : Nat) (n : String)
    (hfree : nameFreeBeforeGap n l = true) (hp : prefixOcc l = true)
    (hd : noDupOcc l = true) : noDupOcc (setSlotName l pc n) = true := by
  induction l generalizing pc with
  | nil => rfl
  | cons s rest ih =>
    by_cases hs : s.shares = 0
    · have hrest : allFree rest = true := by rwa [prefixOcc_cons_free s rest hs] at hp
      cases pc with
      | zero =>
        simp only [setSlotName, noDupOcc, Bool.and_eq_true]
        exact ⟨by simp [hs], noDupOcc_rest s rest hd⟩
      | succ pc =>
        simp only [setSlotName, noDupOcc, Bool.and_eq_true]
        refine ⟨by simp [hs], ?_⟩
        apply allFree_imp_noDupOcc
        rw [allFree_setSlotName]
        exact hrest
    · have hp' : prefixOcc rest = true := by rwa [prefixOcc_cons_occ s rest hs] at hp
      have hd' : noDupOcc rest = true := noDupOcc_rest s rest hd
      simp only [nameFreeBeforeGap, Bool.or_eq_true, Bool.and_eq_true, beq_iff_eq,
        bne_iff_ne] at hfree
      rcases hfree with h0 | ⟨hne, hfree'⟩
      · exact absurd h0 hs
      cases pc with
      | zero =>
        refine noDupOcc_cons_occ_intro ⟨s.shares, n⟩ rest ?_ hd'
        exact gapFree_all n rest hp' hfree'
      | succ pc =>
        refine noDupOcc_cons_occ_intro s (setSlotName rest pc n) ?_ (ih pc hfree' hp' hd')
        intro t ht
        rcases setSlotName_mem rest pc n t ht with h | h
        · exact noDupOcc_head_occ s rest hs hd t h
        · right; rw [h]; exact fun hc => hne hc.symm

/-! ## Reachable registry states satisfy the occupancy invariants -/

theorem allFree_replicate (m : Nat) : allFree (List.replicate m ⟨0, ""⟩) = true := by
  induction m with
  | zero => rfl
  | succ m ih => simpa [List.replicate_succ, allFree] using ih

theorem register_inv (r : Registry) (name : String) (shares : Nat)
    (hp : prefixOcc r.slots = true) (hd : noDupOcc r.slots = true) :
    prefixOcc ((register_one_priority_class r name shares).2).slots = true ∧
      noDupOcc ((register_one_priority_class r name shares).2).slots = true :=
  registerAux_inv name shares 0 r.slots hp hd

theorem rename_inv (r : Registry) (pc : Nat) (newName : String)
    (hp : prefixOcc r.slots = true) (hd : noDupOcc r.slots = true) :
    prefixOcc ((rename_one_priority_class r pc newName).2).slots = true ∧
      noDupOcc ((rename_one_priority_class r pc newName).2).slots = true := by
  unfold rename_one_priority_class
  cases hscan : renameScan pc newName 0 r.slots with
  | some out => exact ⟨hp, hd⟩
  | none =>
    constructor
    · simpa [prefixOcc_setSlotName] using hp
    · exact noDupOcc_setSlotName r.slots pc newName
        (renameScan_imp_nameFree pc newName 0 r.slots hscan) hp hd

theorem reachable_inv (maxClasses : Nat) (r : Registry) (h : Reachable maxClasses r) :
    prefixOcc r.slots = true ∧ noDupOcc r.slots = true := by
  induction h with
  | init =>
    constructor
    · exact allFree_imp_prefixOcc _ (allFree_replicate maxClasses)
    · exact allFree_imp_noDupOcc _ (allFree_replicate maxClasses)
  | reg r name shares _ ih => exact register_inv r name shares ih.1 ih.2
  | ren r pc newName _ ih => exact rename_inv r pc newName ih.1 ih.2

theorem rename_pres_other (r : Registry) (pc i : Nat) (newName : String) (h : i ≠ pc) :
    getAt ((rename_one_priority_class r pc newName).2).slots ⟨0, ""⟩ i =
      getAt r.slots ⟨0, ""⟩ i := by
  unfold rename_one_priority_class
  cases renameScan pc newName 0 r.slots with
  | some out => rfl
  | none => exact getAt_setSlotName_ne r.slots pc i newName h

theorem firstGap_occ (l : List Slot) (j : Nat) (h : j < firstGap l) :
    (getAt l ⟨0, ""⟩ j).shares ≠ 0 := by
  induction l generalizing j with
  | nil => simp [firstGap] at h
  | cons s rest ih =>
    by_cases hs : s.shares = 0
    · simp [firstGap, hs] at h
    · cases j with
      | zero => exact hs
      | succ j =>
        simp only [firstGap, if_neg hs] at h
        exact ih j (by omega)

theorem registerAux_occ_of_occ (n : String) (s' i j : Nat) (l : List Slot)
    (hj : (getAt l ⟨0, ""⟩ j).shares ≠ 0) :
    (getAt (registerAux n s' i l).2 ⟨0, ""⟩ j).shares ≠ 0 := by
  rw [registerAux_pres_occ n s' i j l hj]; exact hj

theorem noDupOcc_pairwise (l : List Slot) (hp : prefixOcc l = true)
    (hd : noDupOcc l = true) (i j : Nat) (hij : i < j)
    (hi : (getAt l ⟨0, ""⟩ i).shares ≠ 0) (hj : (getAt l ⟨0, ""⟩ j).shares ≠ 0) :
    (getAt l ⟨0, ""⟩ i).name ≠ (getAt l ⟨0, ""⟩ j).name := by
  induction l generalizing i j with
  | nil => exact absurd rfl hi
  | cons s rest ih =>
    have hhs : s.shares ≠ 0 := by
      intro hh0
      rw [prefixOcc_cons_free s rest hh0] at hp
      cases i with
      | zero => exact hi hh0
      | succ i => exact hi (allFree_getAt rest i hp)
    have hp' : prefixOcc rest = true := by rwa [prefixOcc_cons_occ s rest hhs] at hp
    have hd' : noDupOcc rest = true := noDupOcc_rest s rest hd
    cases i with
    | zero =>
      cases j with
      | zero => omega
      | succ j =>
        have hjlt : j < rest.length := by
          apply lt_of_getAt_ne rest ⟨0, ""⟩ j
          intro hc
          apply hj
          show (getAt rest ⟨0, ""⟩ j).shares = 0
          rw [hc]
        have hmem : getAt rest ⟨0, ""⟩ j ∈ rest := getAt_mem rest ⟨0, ""⟩ j hjlt
        rcases noDupOcc_head_occ s rest hhs hd _ hmem with h0 | hne
        · exact absurd h0 hj
        · exact fun hc => hne hc.symm
    | succ i =>
      cases j with
      | zero => omega
      | succ j => exact ih hp' hd' i j (by omega) hi hj

theorem firstGap_le_length (l : List Slot) : firstGap l ≤ l.length := by
  induction l with
  | nil => exact Nat.le_refl 0
  | cons s rest ih =>
    by_cases hs : s.shares = 0
    · simp [firstGap, hs]
    · simp only [firstGap, if_neg hs, List.length_cons]
      omega

theorem sampleRegistry_reachable : Reachable 4 sampleRegistry :=
  Reachable.reg _ "b" 2 (Reachable.reg (Registry.init 4) "a" 1 Reachable.init)

end IoQueueModel

namespace IoQueueModel

/-! ## Claims about the priority-class registry -/

/-- Claim C3, counterexample: registration is not idempotent for every
shares value.  Registering "x" with 0 shares returns identity 0, but — a
zero-shares slot still counting as free — a later registration of "y"
takes identity 0 too, and re-registering "x" with the same 0 shares then
yields identity 1, not the identity returned first. -/
theorem claim_C3_counterexample :
    (register_one_priority_class (Registry.init 3) "x" 0).1 = RegisterResult.ok 0 ∧
    (register_one_priority_class
        (register_one_priority_class (Registry.init 3) "x" 0).2 "y" 1).1 =
      RegisterResult.ok 0 ∧
    (register_one_priority_class
        (register_one_priority_class
          (register_one_priority_class (Registry.init 3) "x" 0).2 "y" 1).2 "x" 0).1 ≠
      RegisterResult.ok 0 :=
  ⟨by decide, by decide, by decide⟩

/-- Claim C3 (amended): in any reachable registry state, registering a name
currently held by an occupied slot (nonzero shares) with the same shares
value returns that slot's identity and leaves the registry unchanged; hence
a registration with nonzero shares is idempotent. -/
theorem claim_C3_idempotent (maxClasses : Nat) (r : Registry)
    (hr : Reachable maxClasses r) (id shares : Nat) (name : String)
    (hslot : getAt r.slots ⟨0, ""⟩ id = ⟨shares, name⟩) (h0 : shares ≠ 0) :
    register_one_priority_class r name shares = (RegisterResult.ok id, r) := by
  obtain ⟨hp, hd⟩ := reachable_inv maxClasses r hr
  unfold register_one_priority_class
  rw [registerAux_at_existing name shares shares 0 id r.slots hp hd hslot h0]
  simp

/-- Witness for Claim C3 (amended) at a concrete reachable registry. -/
theorem claim_C3_witness :
    register_one_priority_class
        (register_one_priority_class (Registry.init 2) "a" 5).2 "a" 5 =
      (RegisterResult.ok 0, (register_one_priority_class (Registry.init 2) "a" 5).2) :=
  claim_C3_idempotent 2 _ (Reachable.reg (Registry.init 2) "a" 5 Reachable.init) 0 5 "a"
    (by decide) (by decide)

/-- Claim C4, counterexample: a name registered with 0 shares leaves its
slot marked free, so registering the same name again with different shares
(5) is silently accepted as a fresh occupation instead of faulting. -/
theorem claim_C4_counterexample :
    (register_one_priority_class (Registry.init 2) "x" 0).1 = RegisterResult.ok 0 ∧
    register_one_priority_class
        (register_one_priority_class (Registry.init 2) "x" 0).2 "x" 5 =
      (RegisterResult.ok 0, ⟨[⟨5, "x"⟩, ⟨0, ""⟩]⟩) :=
  ⟨by decide, by decide⟩

/-- Claim C4 (amended): in any reachable registry state, registering a name
currently held by an occupied slot (nonzero shares) with a different shares
value hits the shares-equality assertion and faults, leaving the registry
unchanged; it is never silently accepted. -/
theorem claim_C4_mismatch_faults (maxClasses : Nat) (r : Registry)
    (hr : Reachable maxClasses r) (id shares shares' : Nat) (name : String)
    (hslot : getAt r.slots ⟨0, ""⟩ id = ⟨shares, name⟩) (h0 : shares ≠ 0)
    (hne : shares ≠ shares') :
    register_one_priority_class r name shares' = (RegisterResult.assertFail, r) := by
  obtain ⟨hp, hd⟩ := reachable_inv maxClasses r hr
  unfold register_one_priority_class
  rw [registerAux_at_existing name shares shares' 0 id r.slots hp hd hslot h0]
  simp [hne]

/-- Witness for Claim C4 (amended): "a" registered with 5 shares, then
re-registered with 7 shares, faults. -/
theorem claim_C4_witness :
    register_one_priority_class
        (register_one_priority_class (Registry.init 2) "a" 5).2 "a" 7 =
      (RegisterResult.assertFail, (register_one_priority_class (Registry.init 2) "a" 5).2) :=
  claim_C4_mismatch_faults 2 _ (Reachable.reg (Registry.init 2) "a" 5 Reachable.init) 0 5 7 "a"
    (by decide) (by decide) (by decide)

/-- Claim C5: when every slot is occupied and none holds the fresh name,
registration fails with the capacity-exceeded error and the registry is
exactly what it was before the call. -/
theorem claim_C5_capacity_exceeded (r : Registry) (name : String) (shares : Nat)
    (h : ∀ t ∈ r.slots, t.shares ≠ 0 ∧ t.name ≠ name) :
    register_one_priority_class r name shares = (RegisterResult.capacityExceeded, r) := by
  unfold register_one_priority_class
  rw [registerAux_full name shares 0 r.slots h]

/-- Witness for Claim C5 at a fully occupied two-slot registry. -/
theorem claim_C5_witness :
    register_one_priority_class ⟨[⟨1, "a"⟩, ⟨2, "b"⟩]⟩ "c" 9 =
      (RegisterResult.capacityExceeded, ⟨[⟨1, "a"⟩, ⟨2, "b"⟩]⟩) :=
  claim_C5_capacity_exceeded ⟨[⟨1, "a"⟩, ⟨2, "b"⟩]⟩ "c" 9 (by decide)

/-- Claim C6: on any reachable registry state, rename to a name owned by a
different (occupied) identity fails with a name collision and changes
nothing; rename to the identity's own current name returns `false` and
changes nothing; and rename to a name owned by no occupied slot writes the
name into the identity's slot and returns `true`. -/
theorem claim_C6_rename_cases (maxClasses : Nat) (r : Registry)
    (hr : Reachable maxClasses r) (pc : Nat) (n : String) :
    (∀ j sj, getAt r.slots ⟨0, ""⟩ j = ⟨sj, n⟩ → sj ≠ 0 → j ≠ pc →
      rename_one_priority_class r pc n = (RenameResult.nameCollision, r)) ∧
    (∀ sp, getAt r.slots ⟨0, ""⟩ pc = ⟨sp, n⟩ → sp ≠ 0 →
      rename_one_priority_class r pc n = (RenameResult.ok false, r)) ∧
    ((∀ t ∈ r.slots, t.shares ≠ 0 → t.name ≠ n) → pc < r.slots.length →
      rename_one_priority_class r pc n = (RenameResult.ok true, ⟨setSlotName r.slots pc n⟩) ∧
      getAt ((rename_one_priority_class r pc n).2).slots ⟨0, ""⟩ pc =
        ⟨(getAt r.slots ⟨0, ""⟩ pc).shares, n⟩) := by
  obtain ⟨hp, hd⟩ := reachable_inv maxClasses r hr
  refine ⟨?_, ?_, ?_⟩
  · intro j sj hslot hocc hj
    unfold rename_one_priority_class
    rw [renameScan_hit pc n sj 0 j r.slots hp hd hslot hocc]
    rw [if_neg (by omega : ¬ 0 + j = pc)]
  · intro sp hslot hocc
    unfold rename_one_priority_class
    rw [renameScan_hit pc n sp 0 pc r.slots hp hd hslot hocc]
    rw [if_pos (by omega : 0 + pc = pc)]
  · intro habs hlt
    have hscan : renameScan pc n 0 r.slots = none := by
      apply renameScan_none_of_gapFree
      intro j hj
      have hocc := firstGap_occ r.slots j hj
      have hmem : getAt r.slots ⟨0, ""⟩ j ∈ r.slots :=
        getAt_mem r.slots ⟨0, ""⟩ j (by
          have := firstGap_le_length r.slots
          omega)
      exact habs _ hmem hocc
    unfold rename_one_priority_class
    rw [hscan]
    exact ⟨rfl, getAt_setSlotName_self r.slots pc n hlt⟩

/-- Witness for Claim C6 on a concrete reachable registry ("a" and "b"
registered): collision, self-rename no-op, and fresh-name success. -/
theorem claim_C6_witness :
    rename_one_priority_class sampleRegistry 0 "b" =
      (RenameResult.nameCollision, sampleRegistry) ∧
    rename_one_priority_class sampleRegistry 0 "a" =
      (RenameResult.ok false, sampleRegistry) ∧
    rename_one_priority_class sampleRegistry 0 "c" =
      (RenameResult.ok true, ⟨setSlotName sampleRegistry.slots 0 "c"⟩) :=
  ⟨(claim_C6_rename_cases 4 sampleRegistry sampleRegistry_reachable 0 "b").1 1 2
      (by decide) (by decide) (by decide),
   (claim_C6_rename_cases 4 sampleRegistry sampleRegistry_reachable 0 "a").2.1 1
      (by decide) (by decide),
   ((claim_C6_rename_cases 4 sampleRegistry sampleRegistry_reachable 0 "c").2.2
      (by decide) (by decide)).1⟩

/-- Claim C9, counterexample: a registration with 0 shares returns identity
0, yet with no rename at all, a later registration of a different name
overwrites that slot — the identity is not backed by an occupied slot
holding the original registration's name and shares. -/
theorem claim_C9_counterexample :
    (register_one_priority_class (Registry.init 2) "x" 0).1 = RegisterResult.ok 0 ∧
    (register_one_priority_class
        (register_one_priority_class (Registry.init 2) "x" 0).2 "y" 1).2 =
      ⟨[⟨1, "y"⟩, ⟨0, ""⟩]⟩ :=
  ⟨by decide, by decide⟩

/-- Claim C9 (amended): in every reachable registry state a name is held by
at most one occupied slot, and an occupied (nonzero-shares) slot is never
modified by any registration nor by a rename of a different identity — so
an identity registered with nonzero shares stays backed by its (name,
shares) slot until that identity itself is renamed. -/
theorem claim_C9_registry_invariants :
    (∀ maxClasses r, Reachable maxClasses r → ∀ i j, i ≠ j →
      (getAt r.slots ⟨0, ""⟩ i).shares ≠ 0 → (getAt r.slots ⟨0, ""⟩ j).shares ≠ 0 →
      (getAt r.slots ⟨0, ""⟩ i).name ≠ (getAt r.slots ⟨0, ""⟩ j).name) ∧
    (∀ r name shares i, (getAt r.slots ⟨0, ""⟩ i).shares ≠ 0 →
      getAt ((register_one_priority_class r name shares).2).slots ⟨0, ""⟩ i =
        getAt r.slots ⟨0, ""⟩ i) ∧
    (∀ r pc n i, i ≠ pc →
      getAt ((rename_one_priority_class r pc n).2).slots ⟨0, ""⟩ i =
        getAt r.slots ⟨0, ""⟩ i) := by
  refine ⟨?_, ?_, ?_⟩
  · intro maxClasses r hr i j hij hi hj
    obtain ⟨hp, hd⟩ := reachable_inv maxClasses r hr
    rcases Nat.lt_trichotomy i j with hlt | heq | hgt
    · exact noDupOcc_pairwise r.slots hp hd i j hlt hi hj
    · exact absurd heq hij
    · exact fun hc => noDupOcc_pairwise r.slots hp hd j i hgt hj hi hc.symm
  · intro r name shares i hi
    exact registerAux_pres_occ name shares 0 i r.slots hi
  · intro r pc n i hne
    exact rename_pres_other r pc i n hne

/-- Witness for Claim C9 (amended): concrete applications of all three
conjuncts. -/
theorem claim_C9_witness :
    (getAt sampleRegistry.slots ⟨0, ""⟩ 0).name ≠ (getAt sampleRegistry.slots ⟨0, ""⟩ 1).name ∧
    getAt ((register_one_priority_class ⟨[⟨5, "a"⟩, ⟨0, ""⟩]⟩ "b" 7).2).slots ⟨0, ""⟩ 0 =
      getAt (⟨[⟨5, "a"⟩, ⟨0, ""⟩]⟩ : Registry).slots ⟨0, ""⟩ 0 ∧
    getAt ((rename_one_priority_class ⟨[⟨5, "a"⟩, ⟨0, ""⟩]⟩ 1 "c").2).slots ⟨0, ""⟩ 0 =
      getAt (⟨[⟨5, "a"⟩, ⟨0, ""⟩]⟩ : Registry).slots ⟨0, ""⟩ 0 :=
  ⟨claim_C9_registry_invariants.1 4 sampleRegistry sampleRegistry_reachable 0 1
      (by decide) (by decide) (by decide),
   claim_C9_registry_invariants.2.1 ⟨[⟨5, "a"⟩, ⟨0, ""⟩]⟩ "b" 7 0 (by decide),
   claim_C9_registry_invariants.2.2 ⟨[⟨5, "a"⟩, ⟨0, ""⟩]⟩ 1 "c" 0 (by decide)⟩

/-- Claim C10: rename does not check that its target slot is occupied — a
free slot is renamed all the same and `true` is returned — and the
collision scan stops at the first free slot, so a name stored at or after
that slot is never compared against. -/
theorem claim_C10_rename_unvalidated (r : Registry) (pc : Nat) (n : String)
    (hfree : (getAt r.slots ⟨0, ""⟩ pc).shares = 0) (hlt : pc < r.slots.length)
    (hgap : ∀ j, j < firstGap r.slots → (getAt r.slots ⟨0, ""⟩ j).name ≠ n) :
    rename_one_priority_class r pc n = (RenameResult.ok true, ⟨setSlotName r.slots pc n⟩) ∧
    getAt ((rename_one_priority_class r pc n).2).slots ⟨0, ""⟩ pc = ⟨0, n⟩ := by
  have hscan := renameScan_none_of_gapFree pc n 0 r.slots hgap
  unfold rename_one_priority_class
  rw [hscan]
  refine ⟨rfl, ?_⟩
  rw [getAt_setSlotName_self r.slots pc n hlt, hfree]

/-- Witness for Claim C10: slot 1 is free, slot 2 (beyond the gap) already
holds "z", yet renaming the unoccupied identity 1 to "z" succeeds. -/
theorem claim_C10_witness :
    rename_one_priority_class ⟨[⟨1, "a"⟩, ⟨0, "q"⟩, ⟨7, "z"⟩]⟩ 1 "z" =
      (RenameResult.ok true, ⟨setSlotName [⟨1, "a"⟩, ⟨0, "q"⟩, ⟨7, "z"⟩] 1 "z"⟩) ∧
    getAt ((rename_one_priority_class ⟨[⟨1, "a"⟩, ⟨0, "q"⟩, ⟨7, "z"⟩]⟩ 1 "z").2).slots
        ⟨0, ""⟩ 1 = ⟨0, "z"⟩ :=
  claim_C10_rename_unvalidated ⟨[⟨1, "a"⟩, ⟨0, "q"⟩, ⟨7, "z"⟩]⟩ 1 "z"
    (by decide) (by decide) (by decide)

end IoQueueModel

namespace IoQueueModel

/-! ## Two-level class-table lemmas -/

theorem setAt_of_ge {α : Type} (l : List α) (i : Nat) (a : α) (h : l.length ≤ i) :
    setAt l i a = l := by
  induction l generalizing i with
  | nil => rfl
  | cons x rest ih =>
    cases i with
    | zero => simp at h
    | succ i => simp [setAt, ih i (by simpa using Nat.le_of_succ_le_succ h)]

theorem updTable_self (pcs : List (List (Option PriorityClassData))) (o i : Nat)
    (f : PriorityClassData → PriorityClassData) :
    getAt (getAt (updTable pcs o i f) [] o) none i =
      (getAt (getAt pcs [] o) none i).map f := by
  unfold updTable
  by_cases ho : o < pcs.length
  · rw [getAt_setAt_self _ _ _ _ ho]
    by_cases hi : i < (getAt pcs [] o).length
    · rw [getAt_setAt_self _ _ _ _ hi]
    · rw [setAt_of_ge _ _ _ (Nat.le_of_not_lt hi),
        getAt_of_ge _ _ _ (Nat.le_of_not_lt hi)]
      rfl
  · rw [setAt_of_ge _ _ _ (Nat.le_of_not_lt ho), getAt_of_ge _ _ _ (Nat.le_of_not_lt ho)]
    rfl

theorem updTable_other (pcs : List (List (Option PriorityClassData))) (o i o' i' : Nat)
    (f : PriorityClassData → PriorityClassData) (h : o' ≠ o ∨ i' ≠ i) :
    getAt (getAt (updTable pcs o i f) [] o') none i' = getAt (getAt pcs [] o') none i' := by
  unfold updTable
  rcases h with ho | hi
  · rw [getAt_setAt_ne _ _ _ _ _ ho]
  · by_cases ho : o' = o
    · subst ho
      by_cases hlen : o' < pcs.length
      · rw [getAt_setAt_self _ _ _ _ hlen, getAt_setAt_ne _ _ _ _ _ hi]
      · rw [setAt_of_ge _ _ _ (Nat.le_of_not_lt hlen)]
    · rw [getAt_setAt_ne _ _ _ _ _ ho]

theorem growTable_pointwise (pcs : List (List (Option PriorityClassData)))
    (pcId owner o' i' : Nat) :
    getAt (getAt (growTable pcs pcId owner).1 [] o') none i' =
      getAt (getAt pcs [] o') none i' := by
  unfold growTable
  by_cases h1 : pcs.length ≤ owner
  · rw [if_pos h1]
    by_cases ho : o' = owner
    · subst ho
      have hlen : o' < (ensureSize pcs (o' + 1) ([] : List (Option PriorityClassData))
          |>.length) := by
        rw [length_ensureSize]; omega
      rw [getAt_setAt_self _ _ _ _ hlen, getAt_ensureSize, getAt_ensureSize]
    · rw [getAt_setAt_ne _ _ _ _ _ ho, getAt_ensureSize]
  · rw [if_neg h1]
    by_cases h2 : (getAt pcs [] owner).length ≤ pcId
    · rw [if_pos h2]
      by_cases ho : o' = owner
      · subst ho
        rw [getAt_setAt_self _ _ _ _ (by omega : o' < pcs.length), getAt_ensureSize]
      · rw [getAt_setAt_ne _ _ _ _ _ ho]
    · rw [if_neg h2]

theorem growTable_entry_none (pcs : List (List (Option PriorityClassData)))
    (pcId owner : Nat) (h : (growTable pcs pcId owner).2 = true) :
    getAt (getAt pcs [] owner) none pcId = none := by
  by_cases h1 : pcs.length ≤ owner
  · rw [getAt_of_ge pcs [] owner h1]
    cases pcId <;> rfl
  · by_cases h2 : (getAt pcs [] owner).length ≤ pcId
    · exact getAt_of_ge _ none pcId h2
    · exfalso
      unfold growTable at h
      rw [if_neg h1, if_neg h2] at h
      simp at h

theorem growTable_false (pcs : List (List (Option PriorityClassData))) (pcId owner : Nat)
    (h : (growTable pcs pcId owner).2 = false) : (growTable pcs pcId owner).1 = pcs := by
  unfold growTable at h ⊢
  by_cases h1 : pcs.length ≤ owner
  · rw [if_pos h1] at h; simp at h
  · rw [if_neg h1] at h ⊢
    by_cases h2 : (getAt pcs [] owner).length ≤ pcId
    · rw [if_pos h2] at h; simp at h
    · rw [if_neg h2]

theorem growTable_covers (pcs : List (List (Option PriorityClassData))) (pcId owner : Nat)
    (h : (growTable pcs pcId owner).2 = true) :
    owner < (growTable pcs pcId owner).1.length ∧
      pcId < (getAt (growTable pcs pcId owner).1 [] owner).length := by
  unfold growTable
  by_cases h1 : pcs.length ≤ owner
  · rw [if_pos h1]
    have houter : owner < (ensureSize pcs (owner + 1)
        ([] : List (Option PriorityClassData))).length := by
      rw [length_ensureSize]; omega
    constructor
    · rw [length_setAt]; exact houter
    · rw [getAt_setAt_self _ _ _ _ houter, length_ensureSize]; omega
  · rw [if_neg h1]
    by_cases h2 : (getAt pcs [] owner).length ≤ pcId
    · rw [if_pos h2]
      constructor
      · rw [length_setAt]; omega
      · rw [getAt_setAt_self _ _ _ _ (by omega : owner < pcs.length), length_ensureSize]
        omega
    · exfalso
      unfold growTable at h
      rw [if_neg h1, if_neg h2] at h
      simp at h

theorem growTable_false_covers (pcs : List (List (Option PriorityClassData)))
    (pcId owner : Nat) (h : (growTable pcs pcId owner).2 = false) :
    owner < pcs.length ∧ pcId < (getAt pcs [] owner).length := by
  unfold growTable at h
  by_cases h1 : pcs.length ≤ owner
  · rw [if_pos h1] at h; simp at h
  · rw [if_neg h1] at h
    by_cases h2 : (getAt pcs [] owner).length ≤ pcId
    · rw [if_pos h2] at h; simp at h
    · exact ⟨by omega, by omega⟩

theorem table_find_or_create (reg : Registry) (pcs : List (List (Option PriorityClassData)))
    (pcId owner o' i' : Nat) :
    getAt (getAt (find_or_create_table reg pcs pcId owner) [] o') none i' =
        getAt (getAt pcs [] o') none i' ∨
    (o' = owner ∧ i' = pcId ∧ getAt (getAt pcs [] o') none i' = none ∧
      getAt (getAt (find_or_create_table reg pcs pcId owner) [] o') none i' =
        some (freshPC reg pcId)) := by
  unfold find_or_create_table
  by_cases hcond : ((growTable pcs pcId owner).2 ||
      (getAt (getAt (growTable pcs pcId owner).1 [] owner) none pcId).isNone) = true
  · rw [if_pos hcond]
    have hcov : owner < (growTable pcs pcId owner).1.length ∧
        pcId < (getAt (growTable pcs pcId owner).1 [] owner).length := by
      cases hb : (growTable pcs pcId owner).2 with
      | true => exact growTable_covers pcs pcId owner hb
      | false =>
        rw [growTable_false pcs pcId owner hb]
        exact growTable_false_covers pcs pcId owner hb
    have hold : getAt (getAt pcs [] owner) none pcId = none := by
      cases hb : (growTable pcs pcId owner).2 with
      | true => exact growTable_entry_none pcs pcId owner hb
      | false =>
        rw [hb] at hcond
        simp only [Bool.false_or, Option.isNone_iff_eq_none] at hcond
        rw [growTable_false pcs pcId owner hb] at hcond
        exact hcond
    by_cases ho : o' = owner
    · subst ho
      by_cases hi : i' = pcId
      · subst hi
        right
        refine ⟨rfl, rfl, hold, ?_⟩
        rw [getAt_setAt_self _ _ _ _ hcov.1, getAt_setAt_self _ _ _ _ hcov.2]
      · left
        rw [getAt_setAt_self _ _ _ _ hcov.1, getAt_setAt_ne _ _ _ _ _ hi,
          growTable_pointwise]
    · left
      rw [getAt_setAt_ne _ _ _ _ _ ho, growTable_pointwise]
  · rw [if_neg hcond]
    left
    have hb : (growTable pcs pcId owner).2 = false := by
      cases hb : (growTable pcs pcId owner).2 with
      | true => rw [hb] at hcond; simp at hcond
      | false => rfl
    rw [growTable_false pcs pcId owner hb]

theorem clsOps_table_foc (reg : Registry) (pcs : List (List (Option PriorityClassData)))
    (pcId owner o' i' : Nat) :
    clsOps (find_or_create_table reg pcs pcId owner) o' i' = clsOps pcs o' i' := by
  rcases table_find_or_create reg pcs pcId owner o' i' with h | ⟨_, _, hold, hnew⟩
  · simp [clsOps, h]
  · simp [clsOps, hold, hnew, freshPC]

theorem clsBytes_table_foc (reg : Registry) (pcs : List (List (Option PriorityClassData)))
    (pcId owner o' i' : Nat) :
    clsBytes (find_or_create_table reg pcs pcId owner) o' i' = clsBytes pcs o' i' := by
  rcases table_find_or_create reg pcs pcId owner o' i' with h | ⟨_, _, hold, hnew⟩
  · simp [clsBytes, h]
  · simp [clsBytes, hold, hnew, freshPC]

theorem clsOps_updTable_of_ops_eq (pcs : List (List (Option PriorityClassData)))
    (o i : Nat) (f : PriorityClassData → PriorityClassData)
    (hf : ∀ p, (f p).ops = p.ops) (o' i' : Nat) :
    clsOps (updTable pcs o i f) o' i' = clsOps pcs o' i' := by
  by_cases ho : o' = o
  · by_cases hi : i' = i
    · subst ho; subst hi
      unfold clsOps
      rw [updTable_self]
      cases getAt (getAt pcs [] o') none i' with
      | none => rfl
      | some p => simp [hf p]
    · unfold clsOps
      rw [updTable_other pcs o i o' i' f (Or.inr hi)]
  · unfold clsOps
    rw [updTable_other pcs o i o' i' f (Or.inl ho)]

theorem clsBytes_updTable_of_bytes_eq (pcs : List (List (Option PriorityClassData)))
    (o i : Nat) (f : PriorityClassData → PriorityClassData)
    (hf : ∀ p, (f p).bytes = p.bytes) (o' i' : Nat) :
    clsBytes (updTable pcs o i f) o' i' = clsBytes pcs o' i' := by
  by_cases ho : o' = o
  · by_cases hi : i' = i
    · subst ho; subst hi
      unfold clsBytes
      rw [updTable_self]
      cases getAt (getAt pcs [] o') none i' with
      | none => rfl
      | some p => simp [hf p]
    · unfold clsBytes
      rw [updTable_other pcs o i o' i' f (Or.inr hi)]
  · unfold clsBytes
    rw [updTable_other pcs o i o' i' f (Or.inl ho)]

theorem clsOps_updTable_mono (pcs : List (List (Option PriorityClassData)))
    (o i : Nat) (f : PriorityClassData → PriorityClassData)
    (hf : ∀ p, p.ops ≤ (f p).ops) (o' i' : Nat) :
    clsOps pcs o' i' ≤ clsOps (updTable pcs o i f) o' i' := by
  by_cases ho : o' = o
  · by_cases hi : i' = i
    · subst ho; subst hi
      unfold clsOps
      rw [updTable_self]
      cases getAt (getAt pcs [] o') none i' with
      | none => exact Nat.le_refl 0
      | some p => simpa using hf p
    · unfold clsOps
      rw [updTable_other pcs o i o' i' f (Or.inr hi)]
  · unfold clsOps
    rw [updTable_other pcs o i o' i' f (Or.inl ho)]

theorem clsBytes_updTable_mono (pcs : List (List (Option PriorityClassData)))
    (o i : Nat) (f : PriorityClassData → PriorityClassData)
    (hf : ∀ p, p.bytes ≤ (f p).bytes) (o' i' : Nat) :
    clsBytes pcs o' i' ≤ clsBytes (updTable pcs o i f) o' i' := by
  by_cases ho : o' = o
  · by_cases hi : i' = i
    · subst ho; subst hi
      unfold clsBytes
      rw [updTable_self]
      cases getAt (getAt pcs [] o') none i' with
      | none => exact Nat.le_refl 0
      | some p => simpa using hf p
    · unfold clsBytes
      rw [updTable_other pcs o i o' i' f (Or.inr hi)]
  · unfold clsBytes
    rw [updTable_other pcs o i o' i' f (Or.inl ho)]

/-! ## Admission and lifecycle lemmas -/

theorem clsOps_queue_request (reg : Registry) (cfg : IoQueueConfig) (shift : Nat)
    (st : QueueState) (pcId owner len : Nat) (req : ReqKind) (start : Nat) (o' i' : Nat) :
    clsOps ((queue_request reg cfg shift st pcId owner len req start).1).priorityClasses o' i' =
      clsOps st.priorityClasses o' i' := by
  unfold queue_request
  cases htk : request_fq_ticket cfg shift req len with
  | error e =>
    simp only [htk, find_or_create_class]
    exact clsOps_table_foc reg st.priorityClasses pcId owner o' i'
  | ok t =>
    simp only [htk, find_or_create_class, updatePC]
    rw [clsOps_updTable_of_ops_eq (find_or_create_table reg st.priorityClasses pcId owner)
      owner pcId nrQueuedBump (fun p => rfl) o' i']
    exact clsOps_table_foc reg st.priorityClasses pcId owner o' i'

theorem clsBytes_queue_request (reg : Registry) (cfg : IoQueueConfig) (shift : Nat)
    (st : QueueState) (pcId owner len : Nat) (req : ReqKind) (start : Nat) (o' i' : Nat) :
    clsBytes ((queue_request reg cfg shift st pcId owner len req start).1).priorityClasses o' i' =
      clsBytes st.priorityClasses o' i' := by
  unfold queue_request
  cases htk : request_fq_ticket cfg shift req len with
  | error e =>
    simp only [htk, find_or_create_class]
    exact clsBytes_table_foc reg st.priorityClasses pcId owner o' i'
  | ok t =>
    simp only [htk, find_or_create_class, updatePC]
    rw [clsBytes_updTable_of_bytes_eq (find_or_create_table reg st.priorityClasses pcId owner)
      owner pcId nrQueuedBump (fun p => rfl) o' i']
    exact clsBytes_table_foc reg st.priorityClasses pcId owner o' i'

theorem desc_complete_pcs (st : QueueState) (d : IoDescRW) (res : Nat)
    (st' : QueueState) (d' : IoDescRW) (h : desc_complete st d res = some (st', d')) :
    st'.priorityClasses = st.priorityClasses := by
  unfold desc_complete at h
  cases hres : d.result with
  | none =>
    rw [hres] at h
    simp only [Option.some.injEq, Prod.mk.injEq] at h
    rw [← h.1]
    rfl
  | some v =>
    rw [hres] at h
    simp at h

theorem desc_set_exception_pcs (st : QueueState) (d : IoDescRW)
    (st' : QueueState) (d' : IoDescRW) (h : desc_set_exception st d = some (st', d')) :
    st'.priorityClasses = st.priorityClasses := by
  unfold desc_set_exception at h
  cases hres : d.result with
  | none =>
    rw [hres] at h
    simp only [Option.some.injEq, Prod.mk.injEq] at h
    rw [← h.1]
    rfl
  | some v =>
    rw [hres] at h
    simp at h

theorem qstep_counters_mono (reg : Registry) (cfg : IoQueueConfig) (shift : Nat)
    (st st' : QueueState) (h : QStep reg cfg shift st st') (o' i' : Nat) :
    clsOps st.priorityClasses o' i' ≤ clsOps st'.priorityClasses o' i' ∧
      clsBytes st.priorityClasses o' i' ≤ clsBytes st'.priorityClasses o' i' := by
  cases h with
  | enq pcId owner len req start =>
    rw [clsOps_queue_request, clsBytes_queue_request]
    exact ⟨Nat.le_refl _, Nat.le_refl _⟩
  | disp e rest now hfq =>
    constructor
    · exact clsOps_updTable_mono st.priorityClasses e.owner e.pcId
        (dispatchUpd e.len e.start now) (fun p => Nat.le_succ p.ops) o' i'
    · exact clsBytes_updTable_mono st.priorityClasses e.owner e.pcId
        (dispatchUpd e.len e.start now) (fun p => Nat.le_add_right p.bytes e.len) o' i'
  | compl d res st2 d' hc =>
    rw [desc_complete_pcs _ _ _ _ _ hc]
    exact ⟨Nat.le_refl _, Nat.le_refl _⟩
  | fail d st2 d' hc =>
    rw [desc_set_exception_pcs _ _ _ _ hc]
    exact ⟨Nat.le_refl _, Nat.le_refl _⟩

end IoQueueModel

namespace IoQueueModel

/-! ## Claims about ticket sizing and the request lifecycle -/

/-- Claim C2: ticket sizing yields, for a read, weight 1 and size
`len >>> shift`, and for a write, weight = the configured write-request
multiplier and size = (write-byte multiplier × len) `>>> shift`; in
particular a 4096-byte read gives (1, 4096) and a 4096-byte write with
multipliers 2 and 3 gives (2, 12288) before the granularity shift. -/
theorem claim_C2_ticket_sizing (cfg : IoQueueConfig) (shift len : Nat)
    (hlen : len < 2 ^ 64) (hwr : cfg.disk_bytes_write_to_read_multiplier * len < 2 ^ 64) :
    request_fq_ticket cfg shift ReqKind.read len = Except.ok ⟨1, len >>> shift⟩ ∧
    request_fq_ticket cfg shift ReqKind.write len =
      Except.ok ⟨cfg.disk_req_write_to_read_multiplier,
        (cfg.disk_bytes_write_to_read_multiplier * len) >>> shift⟩ ∧
    request_fq_ticket ⟨2, 3⟩ 0 ReqKind.read 4096 = Except.ok ⟨1, 4096⟩ ∧
    request_fq_ticket ⟨2, 3⟩ 0 ReqKind.write 4096 = Except.ok ⟨2, 12288⟩ := by
  refine ⟨?_, ?_, by decide, by decide⟩
  · simp only [request_fq_ticket, read_request_base_count, reduceIte, Nat.one_mul]
    rw [Nat.mod_eq_of_lt hlen]
    rw [if_neg (by decide : ¬ (ReqKind.read = ReqKind.write))]
  · simp only [request_fq_ticket, reduceIte]
    rw [Nat.mod_eq_of_lt hwr]

/-- Witness for Claim C2 at a 4096-byte request, multipliers 2 and 3,
granularity shift 9. -/
theorem claim_C2_witness :
    request_fq_ticket ⟨2, 3⟩ 9 ReqKind.read 4096 = Except.ok ⟨1, 4096 >>> 9⟩ ∧
    request_fq_ticket ⟨2, 3⟩ 9 ReqKind.write 4096 = Except.ok ⟨2, (3 * 4096) >>> 9⟩ :=
  ⟨(claim_C2_ticket_sizing ⟨2, 3⟩ 9 4096 (by decide) (by decide)).1,
   (claim_C2_ticket_sizing ⟨2, 3⟩ 9 4096 (by decide) (by decide)).2.1⟩

/-- Claim C7, counterexample: an unrecognized request kind does fail with
the unsupported-operation error before any queuing, but the per-class
lookup runs first, so the failing call does create per-class state: on a
manager with no classes at all, the class entry for (owner 0, class 0)
exists after the failed call. -/
theorem claim_C7_counterexample :
    (queue_request ⟨[⟨5, "a"⟩]⟩ ⟨2, 3⟩ 0 ⟨⟨0, 0⟩, [], 0, 0, []⟩ 0 0 10 ReqKind.other 0).2 =
      Except.error IoError.unsupportedOperation ∧
    (queue_request ⟨[⟨5, "a"⟩]⟩ ⟨2, 3⟩ 0 ⟨⟨0, 0⟩, [], 0, 0, []⟩ 0 0 10
        ReqKind.other 0).1.priorityClasses = [[some ⟨"a", 5, 0, 0, 0, 1⟩]] ∧
    (queue_request ⟨[⟨5, "a"⟩]⟩ ⟨2, 3⟩ 0 ⟨⟨0, 0⟩, [], 0, 0, []⟩ 0 0 10
        ReqKind.other 0).1.priorityClasses ≠
      (⟨⟨0, 0⟩, [], 0, 0, []⟩ : QueueState).priorityClasses :=
  ⟨by decide, by decide, by decide⟩

/-- Claim C7 (amended): a request whose kind is neither read nor write
fails synchronously with the unsupported-operation error: nothing is handed
to the fair scheduler, no queued/executing counter changes, and the
Capacity Group is untouched — but the per-class lookup precedes ticket
validation, so the failing call may create the (owner, class) entry. -/
theorem claim_C7_unsupported (reg : Registry) (cfg : IoQueueConfig) (shift : Nat)
    (st : QueueState) (pcId owner len : Nat) (req : ReqKind) (start : Nat)
    (hnr : req ≠ ReqKind.read) (hnw : req ≠ ReqKind.write) :
    queue_request reg cfg shift st pcId owner len req start =
      (find_or_create_class reg st pcId owner, Except.error IoError.unsupportedOperation) ∧
    (queue_request reg cfg shift st pcId owner len req start).1.fqQueue = st.fqQueue ∧
    (queue_request reg cfg shift st pcId owner len req start).1.queuedRequests =
      st.queuedRequests ∧
    (queue_request reg cfg shift st pcId owner len req start).1.requestsExecuting =
      st.requestsExecuting ∧
    (queue_request reg cfg shift st pcId owner len req start).1.fg = st.fg := by
  have hticket : request_fq_ticket cfg shift req len =
      Except.error IoError.unsupportedOperation := by
    cases req with
    | read => exact absurd rfl hnr
    | write => exact absurd rfl hnw
    | other => rfl
  have h1 : queue_request reg cfg shift st pcId owner len req start =
      (find_or_create_class reg st pcId owner, Except.error IoError.unsupportedOperation) := by
    unfold queue_request
    rw [hticket]
  refine ⟨h1, ?_, ?_, ?_, ?_⟩ <;> (rw [h1]; rfl)

/-- Witness for Claim C7 (amended) at a concrete manager and request. -/
theorem claim_C7_witness :
    queue_request ⟨[⟨5, "a"⟩]⟩ ⟨2, 3⟩ 0 ⟨⟨0, 0⟩, [], 0, 0, []⟩ 0 0 10 ReqKind.other 0 =
      (find_or_create_class ⟨[⟨5, "a"⟩]⟩ ⟨⟨0, 0⟩, [], 0, 0, []⟩ 0 0,
        Except.error IoError.unsupportedOperation) :=
  (claim_C7_unsupported ⟨[⟨5, "a"⟩]⟩ ⟨2, 3⟩ 0 ⟨⟨0, 0⟩, [], 0, 0, []⟩ 0 0 10 ReqKind.other 0
    (by decide) (by decide)).1

/-- Claim C1: on an admitted ticket, each terminal operation of the
completion descriptor — `complete` with a byte count or `set_exception` —
releases the ticket's capacity back to the Capacity Group (the outstanding
totals return to their pre-admission values), decrements the executing
counter by one, resolves the result, and destroys the descriptor so that
any further terminal call is refused: the release happens exactly once on
both the success and the failure path. -/
theorem claim_C1_terminal_release (st : QueueState) (t : Ticket) (d : IoDescRW) (res : Nat)
    (hres : d.result = none) (ht : d.ticket = t) (hex : 1 ≤ st.requestsExecuting) :
    desc_complete (fair_group_grab st t) d res =
      some ({ st with requestsExecuting := st.requestsExecuting - 1 },
        ⟨t, some (Except.ok res)⟩) ∧
    desc_set_exception (fair_group_grab st t) d =
      some ({ st with requestsExecuting := st.requestsExecuting - 1 },
        ⟨t, some (Except.error ())⟩) ∧
    (st.requestsExecuting - 1) + 1 = st.requestsExecuting ∧
    desc_complete { st with requestsExecuting := st.requestsExecuting - 1 }
        ⟨t, some (Except.ok res)⟩ res = none ∧
    desc_set_exception { st with requestsExecuting := st.requestsExecuting - 1 }
        ⟨t, some (Except.ok res)⟩ = none ∧
    desc_complete { st with requestsExecuting := st.requestsExecuting - 1 }
        ⟨t, some (Except.error ())⟩ res = none ∧
    desc_set_exception { st with requestsExecuting := st.requestsExecuting - 1 }
        ⟨t, some (Except.error ())⟩ = none := by
  obtain ⟨⟨w, sz⟩, fq, qr, re, pcs⟩ := st
  obtain ⟨tk, rr⟩ := d
  have hrr : rr = none := hres
  have htk : tk = t := ht
  subst hrr
  subst htk
  refine ⟨?_, ?_, by simpa using Nat.succ_pred_eq_of_pos (by simpa using hex), rfl, rfl,
    rfl, rfl⟩
  · simp [desc_complete, notify_requests_finished, fair_group_grab]
  · simp [desc_set_exception, notify_requests_finished, fair_group_grab]

/-- Witness for Claim C1 at a concrete admitted request: one executing
request, ticket (1, 8), completion with 512 bytes. -/
theorem claim_C1_witness :
    desc_complete (fair_group_grab ⟨⟨3, 4⟩, [], 0, 1, []⟩ ⟨1, 8⟩) ⟨⟨1, 8⟩, none⟩ 512 =
      some (⟨⟨3, 4⟩, [], 0, 0, []⟩, ⟨⟨1, 8⟩, some (Except.ok 512)⟩) ∧
    desc_set_exception (fair_group_grab ⟨⟨3, 4⟩, [], 0, 1, []⟩ ⟨1, 8⟩) ⟨⟨1, 8⟩, none⟩ =
      some (⟨⟨3, 4⟩, [], 0, 0, []⟩, ⟨⟨1, 8⟩, some (Except.error ())⟩) ∧
    0 + 1 = 1 ∧
    desc_complete ⟨⟨3, 4⟩, [], 0, 0, []⟩ ⟨⟨1, 8⟩, some (Except.ok 512)⟩ 512 = none ∧
    desc_set_exception ⟨⟨3, 4⟩, [], 0, 0, []⟩ ⟨⟨1, 8⟩, some (Except.ok 512)⟩ = none ∧
    desc_complete ⟨⟨3, 4⟩, [], 0, 0, []⟩ ⟨⟨1, 8⟩, some (Except.error ())⟩ 512 = none ∧
    desc_set_exception ⟨⟨3, 4⟩, [], 0, 0, []⟩ ⟨⟨1, 8⟩, some (Except.error ())⟩ = none :=
  claim_C1_terminal_release ⟨⟨3, 4⟩, [], 0, 1, []⟩ ⟨1, 8⟩ ⟨⟨1, 8⟩, none⟩ 512
    rfl rfl (by decide)

/-- Claim C8: the dispatch callback adds exactly 1 to the class's
cumulative `ops`, adds exactly the request's byte length to its cumulative
`bytes`, decrements the class's queued counter by one and records the
queue delay; across every lifecycle step the cumulative `ops` and `bytes`
counters never decrease; and a merely queued (not yet dispatched) request
changes neither `ops` nor `bytes` of any class. -/
theorem claim_C8_dispatch_accounting :
    (∀ st owner pcId len start now p, getPC st owner pcId = some p →
      getPC (dispatch_callback st owner pcId len start now) owner pcId =
        some ⟨p.name, p.shares, p.nrQueued - 1, p.ops + 1, p.bytes + len, now - start⟩ ∧
      (1 ≤ p.nrQueued → (p.nrQueued - 1) + 1 = p.nrQueued)) ∧
    (∀ reg cfg shift st st', QStep reg cfg shift st st' → ∀ o i,
      clsOps st.priorityClasses o i ≤ clsOps st'.priorityClasses o i ∧
      clsBytes st.priorityClasses o i ≤ clsBytes st'.priorityClasses o i) ∧
    (∀ reg cfg shift st pcId owner len req start o i,
      clsOps ((queue_request reg cfg shift st pcId owner len req start).1).priorityClasses
          o i = clsOps st.priorityClasses o i ∧
      clsBytes ((queue_request reg cfg shift st pcId owner len req start).1).priorityClasses
          o i = clsBytes st.priorityClasses o i) := by
  refine ⟨?_, ?_, ?_⟩
  · intro st owner pcId len start now p hp
    unfold getPC at hp
    constructor
    · show getAt (getAt (updTable st.priorityClasses owner pcId
        (dispatchUpd len start now)) [] owner) none pcId = _
      rw [updTable_self, hp]
      rfl
    · intro h; omega
  · intro reg cfg shift st st' h o i
    exact qstep_counters_mono reg cfg shift st st' h o i
  · intro reg cfg shift st pcId owner len req start o i
    exact ⟨clsOps_queue_request reg cfg shift st pcId owner len req start o i,
      clsBytes_queue_request reg cfg shift st pcId owner len req start o i⟩

/-- Witness for Claim C8: a concrete dispatch (class had 2 ops, 100 bytes,
1 queued; request of 50 bytes, admitted at 10, dispatched at 35), a
concrete enqueue step under the monotonicity conjunct, and a concrete
enqueue leaving `ops`/`bytes` unchanged. -/
theorem claim_C8_witness :
    getPC (dispatch_callback ⟨⟨0, 0⟩, [], 1, 0, [[some ⟨"a", 5, 1, 2, 100, 1⟩]]⟩
        0 0 50 10 35) 0 0 = some ⟨"a", 5, 0, 3, 150, 25⟩ ∧
    clsOps (⟨⟨0, 0⟩, [], 0, 0, []⟩ : QueueState).priorityClasses 0 0 ≤
      clsOps ((queue_request ⟨[⟨5, "a"⟩]⟩ ⟨2, 3⟩ 0 ⟨⟨0, 0⟩, [], 0, 0, []⟩ 0 0 100
        ReqKind.read 0).1).priorityClasses 0 0 ∧
    clsOps ((queue_request ⟨[⟨5, "a"⟩]⟩ ⟨2, 3⟩ 0 ⟨⟨0, 0⟩, [], 0, 0, []⟩ 0 0 100
        ReqKind.read 0).1).priorityClasses 0 0 =
      clsOps (⟨⟨0, 0⟩, [], 0, 0, []⟩ : QueueState).priorityClasses 0 0 :=
  ⟨(claim_C8_dispatch_accounting.1 ⟨⟨0, 0⟩, [], 1, 0, [[some ⟨"a", 5, 1, 2, 100, 1⟩]]⟩
      0 0 50 10 35 ⟨"a", 5, 1, 2, 100, 1⟩ (by decide)).1,
   (claim_C8_dispatch_accounting.2.1 ⟨[⟨5, "a"⟩]⟩ ⟨2, 3⟩ 0 ⟨⟨0, 0⟩, [], 0, 0, []⟩ _
      (QStep.enq ⟨⟨0, 0⟩, [], 0, 0, []⟩ 0 0 100 ReqKind.read 0) 0 0).1,
   (claim_C8_dispatch_accounting.2.2 ⟨[⟨5, "a"⟩]⟩ ⟨2, 3⟩ 0 ⟨⟨0, 0⟩, [], 0, 0, []⟩ 0 0 100
      ReqKind.read 0 0 0).1⟩

end IoQueueModel

namespace IoQueueModel

example : register_one_priority_class (Registry.init 3) "logs" 100 =
    (.ok 0, ⟨[⟨100, "logs"⟩, ⟨0, ""⟩, ⟨0, ""⟩]⟩) := by decide

example :
    (register_one_priority_class ⟨[⟨100, "logs"⟩, ⟨0, ""⟩]⟩ "logs" 100).1 = .ok 0 := by decide

example :
    (register_one_priority_class ⟨[⟨100, "logs"⟩, ⟨0, ""⟩]⟩ "logs" 50).1 = .assertFail := by
  decide

example :
    (rename_one_priority_class ⟨[⟨100, "logs"⟩, ⟨7, "b"⟩]⟩ 0 "audit") =
      (.ok true, ⟨[⟨100, "audit"⟩, ⟨7, "b"⟩]⟩) := by decide

example :
    (rename_one_priority_class ⟨[⟨100, "audit"⟩, ⟨7, "b"⟩]⟩ 1 "audit").1 = .nameCollision := by
  decide

example :
    (rename_one_priority_class ⟨[⟨100, "audit"⟩, ⟨7, "b"⟩]⟩ 0 "audit") =
      (.ok false, ⟨[⟨100, "audit"⟩, ⟨7, "b"⟩]⟩) := by decide

end IoQueueModel
